import Mathlib

/-!
Verification of the deduplicator add-on core: key extraction, duplicate
grouping, canonical-member selection and the tagging pass, as implemented in
`deduplicator_anki/__init__.py`.

Records ("notes") are ordered field-name/field-value mappings with a tag list
and a number of associated cards.  The external record store is modelled as an
association list from note id to note; fetching a missing id is the
`NotFoundError` of the host.  Tagging a note writes it back to the store
immediately (`note.flush()`), so the store is threaded through the tagging
pass and partial writes survive an abort.
-/

def COMBINE_ALL_OPTION : String := "Combine All Keys"

def DEFAULT_TAG_NAME : String := "duplicate-card"

/-- A record of the external store: ordered field (name, value) pairs, the
tags attached to it, and the number of associated cards. -/
structure Note where
  fields : List (String × String)
  tags : List String
  cards : Nat
deriving DecidableEq, Repr

/-- `note.keys()`: field names in the record's own order. -/
def Note.keys (n : Note) : List String := n.fields.map Prod.fst

/-- `note.values()`: field values in the record's own order. -/
def Note.values (n : Note) : List String := n.fields.map Prod.snd

/-- Modelled from the spec: the external collaborator's label attach
(`note.addTag`) — "Label: a string attached to a record, non-destructive,
idempotent (applying it twice has the same observable effect as once)". -/
def Note.addTag (n : Note) (tag : String) : Note :=
  if tag ∈ n.tags then n else { n with tags := n.tags ++ [tag] }

/-- The external record store: note ids mapped to notes. -/
abbrev Store := List (Nat × Note)

/-- `mw.col.getNote(id)`: fetch a note; `none` models `NotFoundError`. -/
def Store.getNote (store : Store) (id : Nat) : Option Note :=
  (store.find? (fun p => p.1 == id)).map Prod.snd

/-- `note.flush()`: persist the note with the given id back to the store. -/
def Store.setNote (store : Store) (id : Nat) (n : Note) : Store :=
  store.map (fun p => if p.1 = id then (id, n) else p)

/-- `_get_dedup_key`: the deduplication key of a note under the configured key
specification.  The sentinel combines all field values in field order; a named
field yields a 1-tuple of its value when present (first occurrence, exact
case-sensitive match) and no key at all when absent. -/
def getDedupKey (selectedKey : String) (note : Note) : Option (List String) :=
  if selectedKey = COMBINE_ALL_OPTION then
    some note.values
  else if selectedKey ∈ note.keys then
    some [note.values.getD (note.keys.indexOf selectedKey) ""]
  else
    none

/-- `duplicates[dedup_key].append(note_id)` on an insertion-ordered dict:
append to the bucket of `key`, creating it at the end when absent. -/
def groupInsert (key : List String) (id : Nat) :
    List (List String × List Nat) → List (List String × List Nat)
  | [] => [(key, [id])]
  | (k, ids) :: rest =>
    if k = key then (k, ids ++ [id]) :: rest
    else (k, ids) :: groupInsert key id rest

/-- `_group_duplicates`: bucket note ids by dedup key, in input order, skipping
notes with zero cards and notes with no key; a failed fetch raises. -/
def groupDuplicates (store : Store) (selectedKey : String) :
    List Nat → List (List String × List Nat) →
    Except String (List (List String × List Nat))
  | [], duplicates => .ok duplicates
  | noteId :: rest, duplicates =>
    match store.getNote noteId with
    | none => .error "NotFoundError"
    | some note =>
      if note.cards = 0 then
        groupDuplicates store selectedKey rest duplicates
      else
        match getDedupKey selectedKey note with
        | none => groupDuplicates store selectedKey rest duplicates
        | some key => groupDuplicates store selectedKey rest (groupInsert key noteId duplicates)

/-- The inner loop of `_apply_tag_to_duplicates`: fetch each listed note in
order, attach the tag, flush, count; a failed fetch aborts with the store as
already written. -/
def tagIds (tagToApply keyDisplay : String) :
    List Nat → Store → Nat → List String →
    Except (String × Store) (Store × Nat × List String)
  | [], store, total, details => .ok (store, total, details)
  | noteId :: rest, store, total, details =>
    match store.getNote noteId with
    | none => .error ("NotFoundError", store)
    | some note =>
      let tagged := note.addTag tagToApply
      let store2 := store.setNote noteId tagged
      let details2 :=
        if details.length < 50 then
          details ++ [keyDisplay ++ ": note_id:" ++ toString noteId ++ " [TAGGED]"]
        else details
      tagIds tagToApply keyDisplay rest store2 (total + 1) details2

/-- The bucket loop of `_apply_tag_to_duplicates`: skip buckets of at most one
member; otherwise sort the bucket ascending and tag everything but the first
(smallest) id. -/
def applyTagGo (selectedKey tagToApply : String) :
    List (List String × List Nat) → Store → Nat → List String →
    Except (String × Store) (Store × Nat × List String)
  | [], store, total, details => .ok (store, total, details)
  | (key, noteIdsList) :: rest, store, total, details =>
    if noteIdsList.length ≤ 1 then
      applyTagGo selectedKey tagToApply rest store total details
    else
      let keyDisplay :=
        if selectedKey = COMBINE_ALL_OPTION then "(combined keys)" else key.getD 0 ""
      match tagIds tagToApply keyDisplay
          ((List.insertionSort (fun a b => a ≤ b) noteIdsList).drop 1) store total details with
      | .error e => .error e
      | .ok (store2, total2, details2) =>
        applyTagGo selectedKey tagToApply rest store2 total2 details2

/-- `_apply_tag_to_duplicates`: returns the total tagged count and the detail
trace, threading the store through every `flush`. -/
def applyTagToDuplicates (selectedKey : String)
    (duplicates : List (List String × List Nat)) (tagToApply : String)
    (store : Store) : Except (String × Store) (Store × Nat × List String) :=
  applyTagGo selectedKey tagToApply duplicates store 0 []

/-- How a run ends at the caller: an error shown via `showInfo` and a `None`
return, an exception escaping `_tag_duplicates` unhandled, or the summary. -/
inductive RunOutcome where
  | handledError (shown : String)
  | crashed (e : String)
  | success (summary : String)
deriving DecidableEq, Repr

/-- The tail of `_tag_duplicates` after grouping succeeded: pick the tag to
apply (empty falls back to the default), run the tagging pass — whose
exceptions are not caught — and format the summary line. -/
def tagPhase (selectedKey tagName : String)
    (duplicates : List (List String × List Nat)) (store : Store) :
    RunOutcome × Store :=
  let tagToApply := if tagName = "" then DEFAULT_TAG_NAME else tagName
  match applyTagToDuplicates selectedKey duplicates tagToApply store with
  | .error (e, store2) => (.crashed e, store2)
  | .ok (store2, totalTagged, _details) =>
    (.success ("Total: " ++ toString totalTagged ++ " notes tagged as '" ++ tagToApply ++ "'"),
      store2)

/-- `_tag_duplicates`: resolve the filter (already-performed, passed as an
`Except` as `_collect_note_ids` reports it), group, then tag.  Filter and
grouping errors are caught and shown; tagging errors propagate. -/
def tagDuplicates (findNotesResult : Except String (List Nat))
    (selectedKey tagName : String) (store : Store) : RunOutcome × Store :=
  match findNotesResult with
  | .error e => (.handledError ("Error executing filter: " ++ e), store)
  | .ok noteIds =>
    match groupDuplicates store selectedKey noteIds [] with
    | .error e => (.handledError ("Error while locating duplicates: " ++ e), store)
    | .ok duplicates => tagPhase selectedKey tagName duplicates store

/-- The ids a bucket contributes to the tagging pass: none when the bucket has
at most one member, else all but the smallest after ascending sort. -/
def bucketTagged (noteIdsList : List Nat) : List Nat :=
  if noteIdsList.length ≤ 1 then []
  else (List.insertionSort (fun a b => a ≤ b) noteIdsList).drop 1

/-- All ids the tagging pass labels, over all buckets. -/
def taggedIds (duplicates : List (List String × List Nat)) : List Nat :=
  duplicates.foldr (fun b acc => bucketTagged b.2 ++ acc) []

/-- The store a step of the tagging pass leaves behind, also when it aborts:
every `flush` already performed is durable. -/
def exceptStore : Except (String × Store) (Store × Nat × List String) → Store
  | .error (_, store) => store
  | .ok (store, _, _) => store

/-- Label monotonicity between two store states: every tag present on a note
before is still present after. -/
def storeMono (s s2 : Store) : Prop :=
  ∀ j n tg, s.getNote j = some n → tg ∈ n.tags →
    ∃ n2, s2.getNote j = some n2 ∧ tg ∈ n2.tags

/-! ### Basic facts about notes and the store -/

theorem Note.mem_tags_addTag (n : Note) (t : String) : t ∈ (n.addTag t).tags := by
  unfold Note.addTag
  by_cases h : t ∈ n.tags
  · simp [h]
  · simp [h]

theorem Note.addTag_of_mem {n : Note} {t : String} (h : t ∈ n.tags) : n.addTag t = n := by
  simp [Note.addTag, h]

theorem Note.addTag_idem (n : Note) (t : String) : (n.addTag t).addTag t = n.addTag t :=
  Note.addTag_of_mem (Note.mem_tags_addTag n t)

theorem Note.tags_subset_addTag {n : Note} {t tg : String} (h : tg ∈ n.tags) :
    tg ∈ (n.addTag t).tags := by
  unfold Note.addTag
  by_cases ht : t ∈ n.tags
  · simpa [ht]
  · simp [ht, h]

theorem Store.getNote_setNote_same {store : Store} {id : Nat} {n0 : Note}
    (h : store.getNote id = some n0) (n : Note) :
    (store.setNote id n).getNote id = some n := by
  induction store with
  | nil => simp [Store.getNote] at h
  | cons p rest ih =>
    by_cases hp : p.1 = id
    · simp [Store.getNote, Store.setNote, List.find?, hp]
    · simp only [Store.getNote, Store.setNote, List.map_cons, List.find?, if_neg hp] at h ⊢
      have : (p.1 == id) = false := by simp [hp]
      simp only [this] at h ⊢
      exact ih h

theorem Store.getNote_setNote_ne {store : Store} {id j : Nat} (hne : j ≠ id) (n : Note) :
    (store.setNote id n).getNote j = store.getNote j := by
  induction store with
  | nil => simp [Store.getNote, Store.setNote]
  | cons p rest ih =>
    by_cases hp : p.1 = id
    · have hj : (id == j) = false := by simp [hne.symm]
      have hj2 : (p.1 == j) = false := by simp [hp, hne.symm]
      simp only [Store.getNote, Store.setNote, List.map_cons, if_pos hp, List.find?, hj, hj2]
      exact ih
    · simp only [Store.getNote, Store.setNote, List.map_cons, if_neg hp, List.find?]
      cases hpj : (p.1 == j) with
      | true => rfl
      | false => exact ih

theorem Store.isSome_getNote_setNote {store : Store} {id : Nat} {n0 : Note}
    (h : store.getNote id = some n0) (n : Note) (j : Nat) :
    ((store.setNote id n).getNote j).isSome = (store.getNote j).isSome := by
  by_cases hj : j = id
  · subst hj
    rw [Store.getNote_setNote_same h n, h]
    rfl
  · rw [Store.getNote_setNote_ne hj n]

/-! ### The tagging pass: success, count and effect on the store -/

theorem taggedIds_cons (b : List String × List Nat) (gs : List (List String × List Nat)) :
    taggedIds (b :: gs) = bucketTagged b.2 ++ taggedIds gs := rfl

theorem bucketTagged_length (l : List Nat) :
    (bucketTagged l).length = if l.length ≤ 1 then 0 else l.length - 1 := by
  unfold bucketTagged
  split
  · rfl
  · simp [List.length_insertionSort]

theorem mem_of_mem_bucketTagged {l : List Nat} {i : Nat} (h : i ∈ bucketTagged l) : i ∈ l := by
  unfold bucketTagged at h
  split at h
  · simp at h
  · exact (List.perm_insertionSort _ l).mem_iff.mp (List.mem_of_mem_drop h)

theorem tagIds_ok (t kd : String) :
    ∀ (ids : List Nat) (store : Store) (total : Nat) (details : List String),
    (∀ i ∈ ids, (store.getNote i).isSome) →
    ∃ store2 details2,
      tagIds t kd ids store total details = .ok (store2, total + ids.length, details2) ∧
      ∀ j, store2.getNote j =
        if j ∈ ids then (store.getNote j).map (fun n => n.addTag t) else store.getNote j
  | [], store, total, details, _ => by
    refine ⟨store, details, by simp [tagIds], ?_⟩
    intro j
    simp
  | id :: rest, store, total, details, h => by
    have hid : (store.getNote id).isSome := h id (by simp)
    obtain ⟨note, hnote⟩ := Option.isSome_iff_exists.mp hid
    have hrest : ∀ i ∈ rest, ((store.setNote id (note.addTag t)).getNote i).isSome := by
      intro i hi
      rw [Store.isSome_getNote_setNote hnote (note.addTag t) i]
      exact h i (by simp [hi])
    obtain ⟨store2, details2, heq, heff⟩ :=
      tagIds_ok t kd rest (store.setNote id (note.addTag t)) (total + 1)
        (if details.length < 50 then
          details ++ [kd ++ ": note_id:" ++ toString id ++ " [TAGGED]"]
        else details) hrest
    refine ⟨store2, details2, ?_, ?_⟩
    · have harith : total + 1 + rest.length = total + (id :: rest).length := by
        simp
        omega
      rw [← harith]
      simpa [tagIds, hnote] using heq
    · intro j
      rw [heff j]
      by_cases hj : j = id
      · subst hj
        rw [Store.getNote_setNote_same hnote]
        by_cases hjr : j ∈ rest
        · rw [if_pos hjr, if_pos (by simp), hnote]
          simp [Note.addTag_idem]
        · rw [if_neg hjr, if_pos (by simp), hnote]
          rfl
      · rw [Store.getNote_setNote_ne hj]
        by_cases hjr : j ∈ rest
        · rw [if_pos hjr, if_pos (by simp [hjr])]
        · rw [if_neg hjr, if_neg (by simp [hj, hjr])]

theorem applyTagGo_ok (k t : String) :
    ∀ (gs : List (List String × List Nat)) (store : Store) (total : Nat)
      (details : List String),
    (∀ i ∈ taggedIds gs, (store.getNote i).isSome) →
    ∃ store2 details2,
      applyTagGo k t gs store total details =
        .ok (store2, total + (gs.map (fun b => (bucketTagged b.2).length)).sum, details2) ∧
      ∀ j, store2.getNote j =
        if j ∈ taggedIds gs then (store.getNote j).map (fun n => n.addTag t)
        else store.getNote j
  | [], store, total, details, _ => by
    refine ⟨store, details, by simp [applyTagGo], ?_⟩
    intro j
    simp [taggedIds]
  | (key, ids) :: rest, store, total, details, h => by
    by_cases hle : ids.length ≤ 1
    · have hbt : bucketTagged ids = [] := by simp [bucketTagged, hle]
      have h' : ∀ i ∈ taggedIds rest, (store.getNote i).isSome := by
        intro i hi
        exact h i (by rw [taggedIds_cons]; simp [hi])
      obtain ⟨store2, details2, heq, heff⟩ := applyTagGo_ok k t rest store total details h'
      refine ⟨store2, details2, ?_, ?_⟩
      · simpa [applyTagGo, hle, hbt] using heq
      · intro j
        rw [heff j, taggedIds_cons, hbt]
        simp
    · have hbt : bucketTagged ids = (List.insertionSort (fun a b => a ≤ b) ids).drop 1 := by
        simp [bucketTagged, hle]
      have h1 : ∀ i ∈ (List.insertionSort (fun a b => a ≤ b) ids).drop 1,
          (store.getNote i).isSome := by
        intro i hi
        exact h i (by rw [taggedIds_cons, hbt]; exact List.mem_append.mpr (Or.inl hi))
      obtain ⟨store1, details1, heq1, heff1⟩ :=
        tagIds_ok t (if k = COMBINE_ALL_OPTION then "(combined keys)" else key.getD 0 "")
          ((List.insertionSort (fun a b => a ≤ b) ids).drop 1) store total details h1
      have h2 : ∀ i ∈ taggedIds rest, (store1.getNote i).isSome := by
        intro i hi
        have hbase : (store.getNote i).isSome :=
          h i (by rw [taggedIds_cons]; exact List.mem_append.mpr (Or.inr hi))
        rw [heff1 i]
        split
        · cases hx : store.getNote i with
          | none => rw [hx] at hbase; simp at hbase
          | some n => simp [hx]
        · exact hbase
      obtain ⟨store2, details2, heq2, heff2⟩ :=
        applyTagGo_ok k t rest store1
          (total + ((List.insertionSort (fun a b => a ≤ b) ids).drop 1).length) details1 h2
      refine ⟨store2, details2, ?_, ?_⟩
      · have harith :
            total + ((List.insertionSort (fun a b => a ≤ b) ids).drop 1).length +
              (rest.map (fun b => (bucketTagged b.2).length)).sum =
            total + (((key, ids) :: rest).map (fun b => (bucketTagged b.2).length)).sum := by
          rw [List.map_cons, List.sum_cons, hbt]
          omega
        rw [← harith, ← heq2]
        simp only [applyTagGo, if_neg hle, heq1]
      · intro j
        rw [heff2 j, taggedIds_cons, hbt]
        by_cases hj1 : j ∈ (List.insertionSort (fun a b => a ≤ b) ids).drop 1
        · by_cases hj2 : j ∈ taggedIds rest
          · rw [if_pos hj2, heff1 j, if_pos hj1, if_pos (List.mem_append.mpr (Or.inl hj1))]
            cases store.getNote j with
            | none => rfl
            | some n => simp [Note.addTag_idem]
          · rw [if_neg hj2, heff1 j, if_pos hj1, if_pos (List.mem_append.mpr (Or.inl hj1))]
        · by_cases hj2 : j ∈ taggedIds rest
          · rw [if_pos hj2, heff1 j, if_neg hj1, if_pos (List.mem_append.mpr (Or.inr hj2))]
          · rw [if_neg hj2, heff1 j, if_neg hj1,
              if_neg (fun hmem => (List.mem_append.mp hmem).elim hj1 hj2)]

theorem applyTagToDuplicates_ok (k t : String) (gs : List (List String × List Nat))
    (store : Store) (h : ∀ i ∈ taggedIds gs, (store.getNote i).isSome) :
    ∃ store2 details2,
      applyTagToDuplicates k gs t store =
        .ok (store2, (gs.map (fun b => (bucketTagged b.2).length)).sum, details2) ∧
      ∀ j, store2.getNote j =
        if j ∈ taggedIds gs then (store.getNote j).map (fun n => n.addTag t)
        else store.getNote j := by
  simpa [applyTagToDuplicates] using applyTagGo_ok k t gs store 0 [] h

/-! ### Label monotonicity, also across aborted passes -/

theorem storeMono_refl (s : Store) : storeMono s s :=
  fun _ n _ h ht => ⟨n, h, ht⟩

theorem storeMono_trans {s1 s2 s3 : Store} (h12 : storeMono s1 s2) (h23 : storeMono s2 s3) :
    storeMono s1 s3 := by
  intro j n tg h ht
  obtain ⟨n2, h2, ht2⟩ := h12 j n tg h ht
  exact h23 j n2 tg h2 ht2

theorem storeMono_setNote_addTag {s : Store} {id : Nat} {note : Note} (t : String)
    (h : s.getNote id = some note) : storeMono s (s.setNote id (note.addTag t)) := by
  intro j n tg hj ht
  by_cases hji : j = id
  · subst hji
    have hn : n = note := by
      rw [h] at hj
      exact (Option.some.inj hj).symm
    subst hn
    exact ⟨n.addTag t, Store.getNote_setNote_same h _, Note.tags_subset_addTag ht⟩
  · exact ⟨n, by rw [Store.getNote_setNote_ne hji]; exact hj, ht⟩

theorem tagIds_mono (t kd : String) :
    ∀ (ids : List Nat) (store : Store) (total : Nat) (details : List String),
    storeMono store (exceptStore (tagIds t kd ids store total details))
  | [], store, _, _ => storeMono_refl store
  | id :: rest, store, total, details => by
    cases hx : store.getNote id with
    | none =>
      have heq : tagIds t kd (id :: rest) store total details =
          .error ("NotFoundError", store) := by
        simp [tagIds, hx]
      rw [heq]
      exact storeMono_refl store
    | some note =>
      have heq : tagIds t kd (id :: rest) store total details =
          tagIds t kd rest (store.setNote id (note.addTag t)) (total + 1)
            (if details.length < 50 then
              details ++ [kd ++ ": note_id:" ++ toString id ++ " [TAGGED]"]
            else details) := by
        simp [tagIds, hx]
      rw [heq]
      exact storeMono_trans (storeMono_setNote_addTag t hx) (tagIds_mono t kd rest _ _ _)

theorem applyTagGo_mono (k t : String) :
    ∀ (gs : List (List String × List Nat)) (store : Store) (total : Nat)
      (details : List String),
    storeMono store (exceptStore (applyTagGo k t gs store total details))
  | [], store, _, _ => storeMono_refl store
  | (key, ids) :: rest, store, total, details => by
    by_cases hle : ids.length ≤ 1
    · have heq : applyTagGo k t ((key, ids) :: rest) store total details =
          applyTagGo k t rest store total details := by
        simp [applyTagGo, hle]
      rw [heq]
      exact applyTagGo_mono k t rest store total details
    · cases hx : tagIds t (if k = COMBINE_ALL_OPTION then "(combined keys)" else key.getD 0 "")
        ((List.insertionSort (fun a b => a ≤ b) ids).drop 1) store total details with
      | error e =>
        have heq : applyTagGo k t ((key, ids) :: rest) store total details = .error e := by
          simp only [applyTagGo, if_neg hle, hx]
        rw [heq]
        have hm := tagIds_mono t
          (if k = COMBINE_ALL_OPTION then "(combined keys)" else key.getD 0 "")
          ((List.insertionSort (fun a b => a ≤ b) ids).drop 1) store total details
        rw [hx] at hm
        exact hm
      | ok res =>
        obtain ⟨store1, total1, details1⟩ := res
        have heq : applyTagGo k t ((key, ids) :: rest) store total details =
            applyTagGo k t rest store1 total1 details1 := by
          simp only [applyTagGo, if_neg hle, hx]
        rw [heq]
        have hm := tagIds_mono t
          (if k = COMBINE_ALL_OPTION then "(combined keys)" else key.getD 0 "")
          ((List.insertionSort (fun a b => a ≤ b) ids).drop 1) store total details
        rw [hx] at hm
        exact storeMono_trans hm (applyTagGo_mono k t rest store1 total1 details1)

theorem applyTagToDuplicates_mono (k t : String) (gs : List (List String × List Nat))
    (store : Store) : storeMono store (exceptStore (applyTagToDuplicates k gs t store)) :=
  applyTagGo_mono k t gs store 0 []

/-! ### The grouper: membership, key uniqueness and bucket order -/

theorem mem_groupInsert {key : List String} {id : Nat} :
    ∀ {acc : List (List String × List Nat)} {g : List String × List Nat} {i : Nat},
    g ∈ groupInsert key id acc → i ∈ g.2 →
    (i = id ∧ g.1 = key) ∨ ∃ g0 ∈ acc, g0.1 = g.1 ∧ i ∈ g0.2
  | [], g, i, hg, hi => by
    simp only [groupInsert, List.mem_singleton] at hg
    subst hg
    simp only [List.mem_singleton] at hi
    exact Or.inl ⟨hi, rfl⟩
  | (k, ids) :: rest, g, i, hg, hi => by
    by_cases hk : k = key
    · rw [groupInsert, if_pos hk] at hg
      rcases List.mem_cons.mp hg with hg | hg
      · subst hg
        simp only [List.mem_append, List.mem_singleton] at hi
        rcases hi with hi | hi
        · exact Or.inr ⟨(k, ids), List.mem_cons_self _ _, rfl, hi⟩
        · exact Or.inl ⟨hi, hk⟩
      · exact Or.inr ⟨g, List.mem_cons_of_mem _ hg, rfl, hi⟩
    · rw [groupInsert, if_neg hk] at hg
      rcases List.mem_cons.mp hg with hg | hg
      · subst hg
        exact Or.inr ⟨(k, ids), List.mem_cons_self _ _, rfl, hi⟩
      · rcases mem_groupInsert hg hi with h | ⟨g0, hg0, hfst, hig0⟩
        · exact Or.inl h
        · exact Or.inr ⟨g0, List.mem_cons_of_mem _ hg0, hfst, hig0⟩

theorem groupDuplicates_mem {store : Store} {selectedKey : String} :
    ∀ {ids : List Nat} {acc gs : List (List String × List Nat)},
    groupDuplicates store selectedKey ids acc = .ok gs →
    ∀ {g : List String × List Nat}, g ∈ gs → ∀ {i : Nat}, i ∈ g.2 →
    (∃ g0 ∈ acc, g0.1 = g.1 ∧ i ∈ g0.2) ∨
    ∃ note, store.getNote i = some note ∧ note.cards ≠ 0 ∧
      getDedupKey selectedKey note = some g.1
  | [], acc, gs, h, g, hg, i, hi => by
    rw [groupDuplicates] at h
    cases h
    exact Or.inl ⟨g, hg, rfl, hi⟩
  | id :: rest, acc, gs, h, g, hg, i, hi => by
    cases hx : store.getNote id with
    | none => simp [groupDuplicates, hx] at h
    | some note =>
      simp only [groupDuplicates, hx] at h
      by_cases hc : note.cards = 0
      · rw [if_pos hc] at h
        exact groupDuplicates_mem h hg hi
      · rw [if_neg hc] at h
        cases hk : getDedupKey selectedKey note with
        | none =>
          simp only [hk] at h
          exact groupDuplicates_mem h hg hi
        | some key =>
          simp only [hk] at h
          rcases groupDuplicates_mem h hg hi with ⟨g0, hg0, hfst, hig0⟩ | hnote
          · rcases mem_groupInsert hg0 hig0 with ⟨hii, hkey⟩ | ⟨g1, hg1, hfst1, hig1⟩
            · subst hii
              exact Or.inr ⟨note, hx, hc, by rw [hk, ← hkey, hfst]⟩
            · exact Or.inl ⟨g1, hg1, hfst1.trans hfst, hig1⟩
          · exact Or.inr hnote

theorem mem_map_fst_groupInsert {key : List String} {id : Nat} :
    ∀ {acc : List (List String × List Nat)} {x : List String},
    x ∈ (groupInsert key id acc).map Prod.fst → x ∈ acc.map Prod.fst ∨ x = key
  | [], x, hx => by
    simp only [groupInsert, List.map_cons, List.map_nil, List.mem_singleton] at hx
    exact Or.inr hx
  | (k, ids) :: rest, x, hx => by
    by_cases hk : k = key
    · rw [groupInsert, if_pos hk] at hx
      simp only [List.map_cons, List.mem_cons] at hx ⊢
      rcases hx with hx | hx
      · exact Or.inl (Or.inl hx)
      · exact Or.inl (Or.inr hx)
    · rw [groupInsert, if_neg hk] at hx
      simp only [List.map_cons, List.mem_cons] at hx ⊢
      rcases hx with hx | hx
      · exact Or.inl (Or.inl hx)
      · rcases mem_map_fst_groupInsert hx with h | h
        · exact Or.inl (Or.inr h)
        · exact Or.inr h

theorem nodup_keys_groupInsert {key : List String} {id : Nat} :
    ∀ {acc : List (List String × List Nat)},
    (acc.map Prod.fst).Nodup → ((groupInsert key id acc).map Prod.fst).Nodup
  | [], _ => by simp [groupInsert]
  | (k, ids) :: rest, h => by
    simp only [List.map_cons, List.nodup_cons] at h
    by_cases hk : k = key
    · rw [groupInsert, if_pos hk]
      simp only [List.map_cons, List.nodup_cons]
      exact h
    · rw [groupInsert, if_neg hk]
      simp only [List.map_cons, List.nodup_cons]
      refine ⟨?_, nodup_keys_groupInsert h.2⟩
      intro hmem
      rcases mem_map_fst_groupInsert hmem with hmem | hmem
      · exact h.1 hmem
      · exact hk hmem

theorem groupDuplicates_nodup_keys {store : Store} {selectedKey : String} :
    ∀ {ids : List Nat} {acc gs : List (List String × List Nat)},
    (acc.map Prod.fst).Nodup → groupDuplicates store selectedKey ids acc = .ok gs →
    (gs.map Prod.fst).Nodup
  | [], acc, gs, hnd, h => by
    rw [groupDuplicates] at h
    cases h
    exact hnd
  | id :: rest, acc, gs, hnd, h => by
    cases hx : store.getNote id with
    | none => simp [groupDuplicates, hx] at h
    | some note =>
      simp only [groupDuplicates, hx] at h
      by_cases hc : note.cards = 0
      · rw [if_pos hc] at h
        exact groupDuplicates_nodup_keys hnd h
      · rw [if_neg hc] at h
        cases hk : getDedupKey selectedKey note with
        | none =>
          simp only [hk] at h
          exact groupDuplicates_nodup_keys hnd h
        | some key =>
          simp only [hk] at h
          exact groupDuplicates_nodup_keys (nodup_keys_groupInsert hnd) h

theorem eq_of_mem_of_fst_eq :
    ∀ {gs : List (List String × List Nat)}, (gs.map Prod.fst).Nodup →
    ∀ {g1 g2 : List String × List Nat}, g1 ∈ gs → g2 ∈ gs → g1.1 = g2.1 → g1 = g2
  | [], _, g1, g2, h1, _, _ => by simp at h1
  | a :: rest, hnd, g1, g2, h1, h2, hfst => by
    simp only [List.map_cons, List.nodup_cons] at hnd
    rcases List.mem_cons.mp h1 with ha1 | ha1
    · rcases List.mem_cons.mp h2 with ha2 | ha2
      · rw [ha1, ha2]
      · subst ha1
        have hm : g2.1 ∈ List.map Prod.fst rest := List.mem_map_of_mem Prod.fst ha2
        rw [← hfst] at hm
        exact absurd hm hnd.1
    · rcases List.mem_cons.mp h2 with ha2 | ha2
      · subst ha2
        have hm : g1.1 ∈ List.map Prod.fst rest := List.mem_map_of_mem Prod.fst ha1
        rw [hfst] at hm
        exact absurd hm hnd.1
      · exact eq_of_mem_of_fst_eq hnd.2 ha1 ha2 hfst

theorem groupInsert_sublist {pre : List Nat} {key : List String} {id : Nat} :
    ∀ {acc : List (List String × List Nat)},
    (∀ g ∈ acc, List.Sublist g.2 pre) →
    ∀ {g : List String × List Nat}, g ∈ groupInsert key id acc → List.Sublist g.2 (pre ++ [id])
  | [], _, g, hg => by
    simp only [groupInsert, List.mem_singleton] at hg
    subst hg
    exact List.sublist_append_right pre [id]
  | (k, ids) :: rest, h, g, hg => by
    by_cases hk : k = key
    · rw [groupInsert, if_pos hk] at hg
      rcases List.mem_cons.mp hg with hg | hg
      · subst hg
        exact (h (k, ids) (List.mem_cons_self _ _)).append (List.Sublist.refl [id])
      · exact (h g (List.mem_cons_of_mem _ hg)).trans (List.sublist_append_left pre [id])
    · rw [groupInsert, if_neg hk] at hg
      rcases List.mem_cons.mp hg with hg | hg
      · subst hg
        exact (h (k, ids) (List.mem_cons_self _ _)).trans (List.sublist_append_left pre [id])
      · exact groupInsert_sublist (fun g0 hg0 => h g0 (List.mem_cons_of_mem _ hg0)) hg

theorem groupDuplicates_sublist {store : Store} {selectedKey : String} :
    ∀ {ids pre : List Nat} {acc gs : List (List String × List Nat)},
    (∀ g ∈ acc, List.Sublist g.2 pre) →
    groupDuplicates store selectedKey ids acc = .ok gs →
    ∀ g ∈ gs, List.Sublist g.2 (pre ++ ids)
  | [], pre, acc, gs, hacc, h => by
    rw [groupDuplicates] at h
    cases h
    intro g hg
    simpa using hacc g hg
  | id :: rest, pre, acc, gs, hacc, h => by
    cases hx : store.getNote id with
    | none => simp [groupDuplicates, hx] at h
    | some note =>
      simp only [groupDuplicates, hx] at h
      have hstep : ∀ g ∈ acc, List.Sublist g.2 (pre ++ [id]) :=
        fun g hg => (hacc g hg).trans (List.sublist_append_left pre [id])
      have happ : pre ++ [id] ++ rest = pre ++ id :: rest := by
        rw [List.append_assoc]
        rfl
      by_cases hc : note.cards = 0
      · rw [if_pos hc] at h
        intro g hg
        have hs := groupDuplicates_sublist hstep h g hg
        rwa [happ] at hs
      · rw [if_neg hc] at h
        cases hk : getDedupKey selectedKey note with
        | none =>
          simp only [hk] at h
          intro g hg
          have hs := groupDuplicates_sublist hstep h g hg
          rwa [happ] at hs
        | some key =>
          simp only [hk] at h
          intro g hg
          have hs := groupDuplicates_sublist
            (fun g0 hg0 => groupInsert_sublist hacc hg0) h g hg
          rwa [happ] at hs

/-! ### Key extraction -/

theorem values_getD_indexOf :
    ∀ (fields : List (String × String)) (F v : String),
    (fields.map Prod.fst).Nodup → (F, v) ∈ fields →
    (fields.map Prod.snd).getD ((fields.map Prod.fst).indexOf F) "" = v
  | [], F, v, _, hmem => by simp at hmem
  | (k0, v0) :: rest, F, v, hnd, hmem => by
    simp only [List.map_cons, List.nodup_cons] at hnd
    rcases List.mem_cons.mp hmem with hm | hm
    · cases hm
      rw [List.map_cons, List.map_cons, List.indexOf_cons_self]
      rfl
    · have hF : F ≠ k0 := by
        intro hEq
        subst hEq
        exact hnd.1 (List.mem_map_of_mem Prod.fst hm)
      rw [List.map_cons, List.map_cons, List.indexOf_cons_ne _ (Ne.symm hF)]
      exact values_getD_indexOf rest F v hnd.2 hm

/-! ### Which ids the pass tags -/

theorem mem_taggedIds :
    ∀ {gs : List (List String × List Nat)} {i : Nat},
    i ∈ taggedIds gs → ∃ g ∈ gs, i ∈ bucketTagged g.2
  | [], i, hi => by simp [taggedIds] at hi
  | g0 :: rest, i, hi => by
    rw [taggedIds_cons] at hi
    rcases List.mem_append.mp hi with hi | hi
    · exact ⟨g0, List.mem_cons_self _ _, hi⟩
    · obtain ⟨g, hg, hig⟩ := mem_taggedIds hi
      exact ⟨g, List.mem_cons_of_mem _ hg, hig⟩

theorem taggedIds_of_mem :
    ∀ {gs : List (List String × List Nat)} {g : List String × List Nat},
    g ∈ gs → ∀ {i : Nat}, i ∈ bucketTagged g.2 → i ∈ taggedIds gs
  | [], g, hg, _, _ => by simp at hg
  | g0 :: rest, g, hg, i, hi => by
    rw [taggedIds_cons]
    rcases List.mem_cons.mp hg with hg | hg
    · subst hg
      exact List.mem_append.mpr (Or.inl hi)
    · exact List.mem_append.mpr (Or.inr (taggedIds_of_mem hg hi))

theorem not_mem_taggedIds :
    ∀ {gs : List (List String × List Nat)},
    List.Pairwise (fun g1 g2 => ∀ i ∈ g1.2, i ∉ g2.2) gs →
    ∀ {g : List String × List Nat}, g ∈ gs → ∀ {m : Nat}, m ∈ g.2 →
    m ∉ bucketTagged g.2 → m ∉ taggedIds gs
  | [], _, g, hg, _, _, _ => by simp at hg
  | g0 :: rest, hDisj, g, hg, m, hm, hnot => by
    rw [List.pairwise_cons] at hDisj
    rw [taggedIds_cons]
    intro hmem
    rcases List.mem_cons.mp hg with hg | hg
    · subst hg
      rcases List.mem_append.mp hmem with hmem | hmem
      · exact hnot hmem
      · obtain ⟨g2, hg2, hig2⟩ := mem_taggedIds hmem
        exact hDisj.1 g2 hg2 m hm (mem_of_mem_bucketTagged hig2)
    · rcases List.mem_append.mp hmem with hmem | hmem
      · exact hDisj.1 g hg m (mem_of_mem_bucketTagged hmem) hm
      · exact not_mem_taggedIds hDisj.2 hg hm hnot hmem

/-! ### Sorting is permutation-invariant -/

theorem insertionSort_eq_of_perm {l1 l2 : List Nat} (h : l1.Perm l2) :
    List.insertionSort (fun a b => a ≤ b) l1 = List.insertionSort (fun a b => a ≤ b) l2 := by
  haveI : IsAntisymm Nat (fun a b => a ≤ b) := ⟨fun _ _ h1 h2 => Nat.le_antisymm h1 h2⟩
  exact List.eq_of_perm_of_sorted
    ((List.perm_insertionSort _ l1).trans (h.trans (List.perm_insertionSort _ l2).symm))
    (List.sorted_insertionSort _ l1)
    (List.sorted_insertionSort _ l2)

theorem applyTagGo_perm (k t : String) :
    ∀ {g1 g2 : List (List String × List Nat)},
    List.Forall₂ (fun b1 b2 => b1.1 = b2.1 ∧ b1.2.Perm b2.2) g1 g2 →
    ∀ (store : Store) (total : Nat) (details : List String),
    applyTagGo k t g1 store total details = applyTagGo k t g2 store total details := by
  intro g1 g2 h
  induction h with
  | nil => intro store total details; rfl
  | @cons a b l1 l2 hab hrest ih =>
    intro store total details
    obtain ⟨ka, la⟩ := a
    obtain ⟨kb, lb⟩ := b
    obtain ⟨hkey, hperm⟩ := hab
    have hlen : la.length = lb.length := hperm.length_eq
    simp only at hkey
    subst hkey
    have hsort : List.insertionSort (fun x y => x ≤ y) la =
        List.insertionSort (fun x y => x ≤ y) lb := insertionSort_eq_of_perm hperm
    by_cases hle : la.length ≤ 1
    · simp only [applyTagGo, if_pos hle, if_pos (hlen ▸ hle)]
      exact ih store total details
    · simp only [applyTagGo, if_neg hle, if_neg (hlen ▸ hle), hsort]
      cases htag : tagIds t (if k = COMBINE_ALL_OPTION then "(combined keys)" else ka.getD 0 "")
          ((List.insertionSort (fun x y => x ≤ y) lb).drop 1) store total details with
      | error e => rfl
      | ok res =>
        obtain ⟨store2, total2, details2⟩ := res
        exact ih store2 total2 details2

/-! ### Claim theorems -/

/-- C2: with the "combine all" sentinel key specification, `_get_dedup_key`
returns the tuple of the record's field values in the record's own field
order; consequently two records whose value tuples are equal get equal keys
(and are grouped as duplicates) even when their field names differ. -/
theorem combine_all_key_is_values :
    (∀ n : Note, getDedupKey COMBINE_ALL_OPTION n = some n.values) ∧
    (∀ n1 n2 : Note, n1.values = n2.values →
      getDedupKey COMBINE_ALL_OPTION n1 = getDedupKey COMBINE_ALL_OPTION n2) := by
  constructor
  · intro n
    simp [getDedupKey]
  · intro n1 n2 h
    simp [getDedupKey, h]

/-- Witness for C2 at concrete records with different field names but equal
value tuples. -/
theorem combine_all_key_is_values_witness :
    (Note.values ⟨[("Front", "A"), ("Back", "X")], [], 1⟩ =
      Note.values ⟨[("Question", "A"), ("Answer", "X")], [], 2⟩) ∧
    getDedupKey COMBINE_ALL_OPTION ⟨[("Front", "A"), ("Back", "X")], [], 1⟩ =
      getDedupKey COMBINE_ALL_OPTION ⟨[("Question", "A"), ("Answer", "X")], [], 2⟩ :=
  ⟨rfl, combine_all_key_is_values.2 _ _ rfl⟩

/-- C3: with a key specification naming a specific field, `_get_dedup_key`
returns the 1-tuple of that field's value when the field is present (exact,
case-sensitive name match) and `none` when absent; a record whose key is
`none` appears in no bucket of `_group_duplicates`. -/
theorem named_field_key_spec :
    (∀ (F v : String) (n : Note), F ≠ COMBINE_ALL_OPTION → n.keys.Nodup →
      (F, v) ∈ n.fields → getDedupKey F n = some [v]) ∧
    (∀ (F : String) (n : Note), F ≠ COMBINE_ALL_OPTION → F ∉ n.keys →
      getDedupKey F n = none) ∧
    (∀ (F : String) (store : Store) (ids : List Nat)
      (gs : List (List String × List Nat)) (i : Nat) (note : Note),
      F ≠ COMBINE_ALL_OPTION → store.getNote i = some note → F ∉ note.keys →
      groupDuplicates store F ids [] = .ok gs → ∀ g ∈ gs, i ∉ g.2) := by
  refine ⟨?_, ?_, ?_⟩
  · intro F v n hF hnd hmem
    have hFk : F ∈ List.map Prod.fst n.fields := List.mem_map_of_mem Prod.fst hmem
    simp only [getDedupKey, if_neg hF, Note.values, Note.keys]
    simp only [Note.keys] at hnd
    rw [values_getD_indexOf n.fields F v hnd hmem, if_pos hFk]
  · intro F n hF hnk
    simp only [getDedupKey, if_neg hF, if_neg hnk]
  · intro F store ids gs i note hF hget hnk hrun g hg hig
    rcases groupDuplicates_mem hrun hg hig with ⟨g0, hg0, _, _⟩ | ⟨note2, hget2, _, hkey⟩
    · simp at hg0
    · rw [hget] at hget2
      cases Option.some.inj hget2
      rw [getDedupKey, if_neg hF, if_neg hnk] at hkey
      cases hkey

/-- Witness for C3: the field is matched exactly and case-sensitively, a
missing field yields no key, and a keyless record lands in no bucket. -/
theorem named_field_key_spec_witness :
    getDedupKey "Front" ⟨[("Front", "A"), ("Back", "X")], [], 1⟩ = some ["A"] ∧
    getDedupKey "front" ⟨[("Front", "A"), ("Back", "X")], [], 1⟩ = none ∧
    ∀ g ∈ ([] : List (List String × List Nat)), 1 ∉ g.2 :=
  ⟨named_field_key_spec.1 "Front" "A" _ (by decide) (by decide) (by decide),
   named_field_key_spec.2.1 "front" _ (by decide) (by decide),
   named_field_key_spec.2.2 "Missing" [(1, ⟨[("Front", "A")], [], 1⟩)] [1] [] 1
     ⟨[("Front", "A")], [], 1⟩ (by decide) rfl (by decide) rfl⟩

/-- C4: a fetched record with zero associated cards is skipped entirely by
`_group_duplicates`: it appears in no bucket of the returned map, regardless
of its key. -/
theorem zero_card_notes_excluded (selectedKey : String) (store : Store)
    (ids : List Nat) (gs : List (List String × List Nat)) (i : Nat) (note : Note)
    (hget : store.getNote i = some note) (hcards : note.cards = 0)
    (hrun : groupDuplicates store selectedKey ids [] = .ok gs) :
    ∀ g ∈ gs, i ∉ g.2 := by
  intro g hg hig
  rcases groupDuplicates_mem hrun hg hig with ⟨g0, hg0, _, _⟩ | ⟨note2, hget2, hc2, _⟩
  · simp at hg0
  · rw [hget] at hget2
    cases Option.some.inj hget2
    exact hc2 hcards

/-- Witness for C4: a card-less record whose key equals another record's key
still lands in no bucket of the grouping result. -/
theorem zero_card_notes_excluded_witness :
    groupDuplicates
        [(1, ⟨[("Front", "A")], [], 0⟩), (2, ⟨[("Front", "A")], [], 1⟩),
          (3, ⟨[("Front", "A")], [], 2⟩)] "Front" [1, 2, 3] [] =
      .ok [(["A"], [2, 3])] ∧
    (1 : Nat) ∉ [2, 3] :=
  ⟨rfl,
    zero_card_notes_excluded "Front"
      [(1, ⟨[("Front", "A")], [], 0⟩), (2, ⟨[("Front", "A")], [], 1⟩),
        (3, ⟨[("Front", "A")], [], 2⟩)]
      [1, 2, 3] [(["A"], [2, 3])] 1 ⟨[("Front", "A")], [], 0⟩ rfl rfl rfl
      (["A"], [2, 3]) (by decide)⟩

/-- C6: when resolving the filter fails, the run aborts with the error shown
to the caller, no count is computed (the outcome is not a success summary)
and the store is returned unchanged — zero tagging performed. -/
theorem invalid_filter_aborts_run (e selectedKey tagName : String) (store : Store) :
    tagDuplicates (.error e) selectedKey tagName store =
      (.handledError ("Error executing filter: " ++ e), store) := rfl

/-- C5: on a list of distinct note ids, `_group_duplicates` yields a
partition-like map: every bucket lists its ids in first-seen input order (a
sublist of the input), buckets have no repeated ids, and no id appears in two
distinct buckets. -/
theorem grouping_partition (selectedKey : String) (store : Store) (noteIds : List Nat)
    (gs : List (List String × List Nat)) (hnd : noteIds.Nodup)
    (hrun : groupDuplicates store selectedKey noteIds [] = .ok gs) :
    (∀ g ∈ gs, List.Sublist g.2 noteIds) ∧
    (∀ g ∈ gs, g.2.Nodup) ∧
    (∀ g1 ∈ gs, ∀ g2 ∈ gs, g1 ≠ g2 → ∀ i ∈ g1.2, i ∉ g2.2) := by
  have hsub : ∀ g ∈ gs, List.Sublist g.2 noteIds := by
    intro g hg
    have hpre : ∀ g0 ∈ ([] : List (List String × List Nat)), List.Sublist g0.2 [] := by
      simp
    have hs := groupDuplicates_sublist hpre hrun g hg
    simpa using hs
  refine ⟨hsub, ?_, ?_⟩
  · intro g hg
    exact List.Nodup.sublist (hsub g hg) hnd
  · intro g1 hg1 g2 hg2 hne i hi1 hi2
    have hkeys := groupDuplicates_nodup_keys (by simp) hrun
    rcases groupDuplicates_mem hrun hg1 hi1 with ⟨g0, hg0, _, _⟩ | ⟨note1, hn1, _, hk1⟩
    · simp at hg0
    rcases groupDuplicates_mem hrun hg2 hi2 with ⟨g0, hg0, _, _⟩ | ⟨note2, hn2, _, hk2⟩
    · simp at hg0
    rw [hn1] at hn2
    cases Option.some.inj hn2
    rw [hk1] at hk2
    exact hne (eq_of_mem_of_fst_eq hkeys hg1 hg2 (Option.some.inj hk2))

/-- Witness for C5 on a concrete three-note run with two buckets. -/
theorem grouping_partition_witness :
    (∀ g ∈ [(["A"], [1, 3]), (["B"], [2])], List.Sublist g.2 [1, 2, 3]) ∧
    (∀ g ∈ [(["A"], [1, 3]), (["B"], [2])], g.2.Nodup) ∧
    (∀ g1 ∈ [(["A"], [1, 3]), (["B"], [2])], ∀ g2 ∈ [(["A"], [1, 3]), (["B"], [2])],
      g1 ≠ g2 → ∀ i ∈ g1.2, i ∉ g2.2) :=
  grouping_partition "Front"
    [(1, ⟨[("Front", "A")], [], 1⟩), (2, ⟨[("Front", "B")], [], 1⟩),
      (3, ⟨[("Front", "A")], [], 1⟩)]
    [1, 2, 3] [(["A"], [1, 3]), (["B"], [2])] (by decide) rfl

/-- C9: a run whose filter resolves to zero identifiers succeeds with no
error, tags nothing (the store is returned unchanged) and returns the
one-line summary with count 0 and the configured label. -/
theorem empty_filter_result_run (selectedKey tagName : String) (store : Store)
    (h : tagName ≠ "") :
    tagDuplicates (.ok []) selectedKey tagName store =
      (.success ("Total: 0 notes tagged as '" ++ tagName ++ "'"), store) := by
  simp only [tagDuplicates, groupDuplicates, tagPhase, applyTagToDuplicates, applyTagGo,
    if_neg h]
  rfl

/-- Witness for C9 with a concrete store and label. -/
theorem empty_filter_result_run_witness :
    tagDuplicates (.ok []) "Front" "dup" [(7, ⟨[("Front", "A")], [], 1⟩)] =
      (.success "Total: 0 notes tagged as 'dup'", [(7, ⟨[("Front", "A")], [], 1⟩)]) :=
  empty_filter_result_run "Front" "dup" _ (by decide)

/-- C1: on a duplicate-group map as the grouper builds it (all listed ids
fetchable, no repeats within a bucket, buckets pairwise disjoint), the tagging
pass succeeds; its total equals the sum of `n - 1` over buckets of size
`n ≥ 2` (size ≤ 1 buckets contribute 0); in every bucket of size ≥ 2, sorted
ascending, every id but the first gets the tag while the smallest id's note is
left exactly as it was, and the sole member of a size ≤ 1 bucket is untouched. -/
theorem apply_label_canonical_spec (selectedKey tagToApply : String)
    (groups : List (List String × List Nat)) (store : Store)
    (hEx : ∀ g ∈ groups, ∀ i ∈ g.2, (store.getNote i).isSome)
    (hNodup : ∀ g ∈ groups, g.2.Nodup)
    (hDisj : List.Pairwise (fun g1 g2 => ∀ i ∈ g1.2, i ∉ g2.2) groups) :
    ∃ store2 total2 details2,
      applyTagToDuplicates selectedKey groups tagToApply store =
        .ok (store2, total2, details2) ∧
      total2 = (groups.map (fun g => if g.2.length ≤ 1 then 0 else g.2.length - 1)).sum ∧
      ∀ g ∈ groups,
        (2 ≤ g.2.length →
          (∀ i ∈ (List.insertionSort (fun a b => a ≤ b) g.2).drop 1,
            ∃ n, store.getNote i = some n ∧
              store2.getNote i = some (n.addTag tagToApply)) ∧
          store2.getNote ((List.insertionSort (fun a b => a ≤ b) g.2).headD 0) =
            store.getNote ((List.insertionSort (fun a b => a ≤ b) g.2).headD 0)) ∧
        (g.2.length ≤ 1 → ∀ i ∈ g.2, store2.getNote i = store.getNote i) := by
  have hEx2 : ∀ i ∈ taggedIds groups, (store.getNote i).isSome := by
    intro i hi
    obtain ⟨g, hg, hig⟩ := mem_taggedIds hi
    exact hEx g hg i (mem_of_mem_bucketTagged hig)
  obtain ⟨store2, details2, heq, heff⟩ :=
    applyTagToDuplicates_ok selectedKey tagToApply groups store hEx2
  refine ⟨store2, _, details2, heq, ?_, ?_⟩
  · simp only [bucketTagged_length]
  · intro g hg
    constructor
    · intro hlen
      have hbt : bucketTagged g.2 = (List.insertionSort (fun a b => a ≤ b) g.2).drop 1 := by
        rw [bucketTagged, if_neg (by omega)]
      constructor
      · intro i hi
        have hibt : i ∈ bucketTagged g.2 := by rw [hbt]; exact hi
        have hit : i ∈ taggedIds groups := taggedIds_of_mem hg hibt
        obtain ⟨n, hn⟩ := Option.isSome_iff_exists.mp
          (hEx g hg i (mem_of_mem_bucketTagged hibt))
        refine ⟨n, hn, ?_⟩
        rw [heff i, if_pos hit, hn]
        rfl
      · have hperm : (List.insertionSort (fun a b => a ≤ b) g.2).Perm g.2 :=
          List.perm_insertionSort _ _
        have hlen2 : 2 ≤ (List.insertionSort (fun a b => a ≤ b) g.2).length := by
          rw [hperm.length_eq]
          exact hlen
        cases hs : List.insertionSort (fun a b => a ≤ b) g.2 with
        | nil => rw [hs] at hlen2; simp at hlen2
        | cons x xs =>
          have hxmem : x ∈ g.2 := hperm.mem_iff.mp (by rw [hs]; exact List.mem_cons_self _ _)
          have hnd2 : (x :: xs).Nodup := by
            rw [← hs]
            exact (hperm.nodup_iff).mpr (hNodup g hg)
          have hnotbt : x ∉ bucketTagged g.2 := by
            rw [hbt, hs]
            simpa using (List.nodup_cons.mp hnd2).1
          have hnott : x ∉ taggedIds groups := not_mem_taggedIds hDisj hg hxmem hnotbt
          show store2.getNote x = store.getNote x
          rw [heff x, if_neg hnott]
    · intro hlen i hi
      have hnotbt : i ∉ bucketTagged g.2 := by
        rw [bucketTagged, if_pos hlen]
        simp
      have hnott : i ∉ taggedIds groups := not_mem_taggedIds hDisj hg hi hnotbt
      rw [heff i, if_neg hnott]

/-- Witness for C1 on a two-bucket map over a concrete store. -/
theorem apply_label_canonical_spec_witness :
    ∃ store2 total2 details2,
      applyTagToDuplicates "Front" [(["A"], [2, 1, 3]), (["B"], [7])] "dup"
          [(1, ⟨[("Front", "A")], [], 1⟩), (2, ⟨[("Front", "A")], [], 1⟩),
            (3, ⟨[("Front", "A")], [], 1⟩), (7, ⟨[("Front", "B")], [], 1⟩)] =
        .ok (store2, total2, details2) ∧
      total2 = ([(["A"], [2, 1, 3]), (["B"], [7])].map
        (fun g => if g.2.length ≤ 1 then 0 else g.2.length - 1)).sum ∧
      ∀ g ∈ [(["A"], [2, 1, 3]), (["B"], [7])],
        (2 ≤ g.2.length →
          (∀ i ∈ (List.insertionSort (fun a b => a ≤ b) g.2).drop 1,
            ∃ n, Store.getNote [(1, ⟨[("Front", "A")], [], 1⟩),
                (2, ⟨[("Front", "A")], [], 1⟩), (3, ⟨[("Front", "A")], [], 1⟩),
                (7, ⟨[("Front", "B")], [], 1⟩)] i = some n ∧
              store2.getNote i = some (n.addTag "dup")) ∧
          store2.getNote ((List.insertionSort (fun a b => a ≤ b) g.2).headD 0) =
            Store.getNote [(1, ⟨[("Front", "A")], [], 1⟩),
              (2, ⟨[("Front", "A")], [], 1⟩), (3, ⟨[("Front", "A")], [], 1⟩),
              (7, ⟨[("Front", "B")], [], 1⟩)]
              ((List.insertionSort (fun a b => a ≤ b) g.2).headD 0)) ∧
        (g.2.length ≤ 1 → ∀ i ∈ g.2,
          store2.getNote i = Store.getNote [(1, ⟨[("Front", "A")], [], 1⟩),
            (2, ⟨[("Front", "A")], [], 1⟩), (3, ⟨[("Front", "A")], [], 1⟩),
            (7, ⟨[("Front", "B")], [], 1⟩)] i) :=
  apply_label_canonical_spec "Front" "dup" [(["A"], [2, 1, 3]), (["B"], [7])]
    [(1, ⟨[("Front", "A")], [], 1⟩), (2, ⟨[("Front", "A")], [], 1⟩),
      (3, ⟨[("Front", "A")], [], 1⟩), (7, ⟨[("Front", "B")], [], 1⟩)]
    (by decide) (by decide) (by decide)

/-- C8: running the labeling pass twice on the same groups yields the same
tagged count both times and the same final label state as running it once;
labeling is monotone (no tag is ever removed), and a member that already
carries the tag is still processed and counted. -/
theorem apply_label_idempotent (selectedKey tagToApply : String)
    (groups : List (List String × List Nat)) (store : Store)
    (hEx : ∀ g ∈ groups, ∀ i ∈ g.2, (store.getNote i).isSome) :
    ∃ store1 total1 details1 store2 total2 details2,
      applyTagToDuplicates selectedKey groups tagToApply store =
        .ok (store1, total1, details1) ∧
      applyTagToDuplicates selectedKey groups tagToApply store1 =
        .ok (store2, total2, details2) ∧
      total2 = total1 ∧
      (∀ j, store2.getNote j = store1.getNote j) ∧
      storeMono store store1 := by
  have hEx2 : ∀ i ∈ taggedIds groups, (store.getNote i).isSome := by
    intro i hi
    obtain ⟨g, hg, hig⟩ := mem_taggedIds hi
    exact hEx g hg i (mem_of_mem_bucketTagged hig)
  obtain ⟨store1, details1, heq1, heff1⟩ :=
    applyTagToDuplicates_ok selectedKey tagToApply groups store hEx2
  have hEx3 : ∀ i ∈ taggedIds groups, (store1.getNote i).isSome := by
    intro i hi
    rw [heff1 i, if_pos hi]
    obtain ⟨n, hn⟩ := Option.isSome_iff_exists.mp (hEx2 i hi)
    rw [hn]
    rfl
  obtain ⟨store2, details2, heq2, heff2⟩ :=
    applyTagToDuplicates_ok selectedKey tagToApply groups store1 hEx3
  have hmono : storeMono store store1 := by
    have hm := applyTagToDuplicates_mono selectedKey tagToApply groups store
    rw [heq1] at hm
    exact hm
  refine ⟨store1, _, details1, store2, _, details2, heq1, heq2, rfl, ?_, hmono⟩
  intro j
  by_cases hj : j ∈ taggedIds groups
  · rw [heff2 j, if_pos hj, heff1 j, if_pos hj]
    cases store.getNote j with
    | none => rfl
    | some n => simp [Note.addTag_idem]
  · rw [heff2 j, if_neg hj]

/-- Witness for C8 where one group member already carries the tag. -/
theorem apply_label_idempotent_witness :
    ∃ store1 total1 details1 store2 total2 details2,
      applyTagToDuplicates "Front" [(["A"], [1, 2])] "dup"
          [(1, ⟨[("Front", "A")], [], 1⟩), (2, ⟨[("Front", "A")], ["dup"], 1⟩)] =
        .ok (store1, total1, details1) ∧
      applyTagToDuplicates "Front" [(["A"], [1, 2])] "dup" store1 =
        .ok (store2, total2, details2) ∧
      total2 = total1 ∧
      (∀ j, store2.getNote j = store1.getNote j) ∧
      storeMono [(1, ⟨[("Front", "A")], [], 1⟩), (2, ⟨[("Front", "A")], ["dup"], 1⟩)]
        store1 :=
  apply_label_idempotent "Front" "dup" [(["A"], [1, 2])]
    [(1, ⟨[("Front", "A")], [], 1⟩), (2, ⟨[("Front", "A")], ["dup"], 1⟩)] (by decide)

/-- C10: the labeling pass depends only on which identifiers share a bucket,
not on the order the grouper encountered them: permuting the ids inside any
buckets leaves the result (store, count and trace) unchanged, because each
bucket is sorted ascending before canonical selection. -/
theorem apply_label_perm_invariant (selectedKey tagToApply : String)
    (g1 g2 : List (List String × List Nat)) (store : Store)
    (h : List.Forall₂ (fun b1 b2 => b1.1 = b2.1 ∧ b1.2.Perm b2.2) g1 g2) :
    applyTagToDuplicates selectedKey g1 tagToApply store =
      applyTagToDuplicates selectedKey g2 tagToApply store :=
  applyTagGo_perm selectedKey tagToApply h store 0 []

/-- Witness for C10 on two orderings of the same bucket. -/
theorem apply_label_perm_invariant_witness :
    applyTagToDuplicates "Front" [(["A"], [3, 1, 2])] "dup"
        [(1, ⟨[("Front", "A")], [], 1⟩), (2, ⟨[("Front", "A")], [], 1⟩),
          (3, ⟨[("Front", "A")], [], 1⟩)] =
      applyTagToDuplicates "Front" [(["A"], [2, 3, 1])] "dup"
        [(1, ⟨[("Front", "A")], [], 1⟩), (2, ⟨[("Front", "A")], [], 1⟩),
          (3, ⟨[("Front", "A")], [], 1⟩)] :=
  apply_label_perm_invariant "Front" "dup" _ _ _
    (List.Forall₂.cons ⟨rfl, by decide⟩ List.Forall₂.nil)

/-- C7 counterexample: a `NotFoundError` raised while fetching a note inside
the tagging loop is not caught by `_tag_duplicates` (the `try/except` wraps
only the grouping call), so the run ends `crashed` — the exception escapes
rather than being shown as a single human-readable message; the label already
flushed to note 2 remains persisted. -/
theorem notfound_in_tagging_is_uncaught :
    tagPhase "Front" "dup" [(["A"], [1, 2, 3])]
        [(1, ⟨[("Front", "A")], [], 1⟩), (2, ⟨[("Front", "A")], [], 1⟩)] =
      (.crashed "NotFoundError",
        [(1, ⟨[("Front", "A")], [], 1⟩), (2, ⟨[("Front", "A")], ["dup"], 1⟩)]) := by
  decide

/-- C7 (amended): a fetch failure during grouping is caught and surfaced as a
single human-readable message with the store untouched; a fetch failure during
the tagging loop aborts the pass and propagates out of `_tag_duplicates`
uncaught, and every label persisted before the failure remains (labels are
never removed, even by an aborted pass). -/
theorem notfound_abort_handling :
    (∀ (store : Store) (selectedKey tagName : String) (noteIds : List Nat) (e : String),
      groupDuplicates store selectedKey noteIds [] = .error e →
      tagDuplicates (.ok noteIds) selectedKey tagName store =
        (.handledError ("Error while locating duplicates: " ++ e), store)) ∧
    (∀ (selectedKey tagName : String) (gs : List (List String × List Nat))
      (store store2 : Store) (e : String),
      applyTagToDuplicates selectedKey gs
        (if tagName = "" then DEFAULT_TAG_NAME else tagName) store = .error (e, store2) →
      tagPhase selectedKey tagName gs store = (.crashed e, store2)) ∧
    (∀ (selectedKey t : String) (gs : List (List String × List Nat))
      (store store2 : Store) (e : String),
      applyTagToDuplicates selectedKey gs t store = .error (e, store2) →
      storeMono store store2) := by
  refine ⟨?_, ?_, ?_⟩
  · intro store selectedKey tagName noteIds e h
    simp only [tagDuplicates, h]
  · intro selectedKey tagName gs store store2 e h
    simp only [tagPhase, h]
  · intro selectedKey t gs store store2 e h
    have hm := applyTagToDuplicates_mono selectedKey t gs store
    rw [h] at hm
    exact hm

/-- Witness for C7 (amended): a vanished id during grouping is reported as a
message; the tagging-time failure of `notfound_in_tagging_is_uncaught`
propagates with the already-written store, whose prior labels survive. -/
theorem notfound_abort_handling_witness :
    tagDuplicates (.ok [5]) "Front" "dup" [] =
      (.handledError ("Error while locating duplicates: " ++ "NotFoundError"), []) ∧
    tagPhase "Front" "dup" [(["A"], [1, 2, 3])]
        [(1, ⟨[("Front", "A")], [], 1⟩), (2, ⟨[("Front", "A")], [], 1⟩)] =
      (.crashed "NotFoundError",
        [(1, ⟨[("Front", "A")], [], 1⟩), (2, ⟨[("Front", "A")], ["dup"], 1⟩)]) ∧
    storeMono [(1, ⟨[("Front", "A")], [], 1⟩), (2, ⟨[("Front", "A")], [], 1⟩)]
      [(1, ⟨[("Front", "A")], [], 1⟩), (2, ⟨[("Front", "A")], ["dup"], 1⟩)] :=
  ⟨notfound_abort_handling.1 [] "Front" "dup" [5] "NotFoundError" rfl,
   notfound_abort_handling.2.1 "Front" "dup" [(["A"], [1, 2, 3])] _ _ "NotFoundError"
     rfl,
   notfound_abort_handling.2.2 "Front" "dup" [(["A"], [1, 2, 3])] _ _ "NotFoundError"
     rfl⟩
